import Mathlib

/-!
Shallow embedding of the osquery SQLite virtual-table adapter
(src/osquery/core/virtual_table.h) and proofs about its lifecycle
callbacks: xCreate, xBestIndex, xFilter, xEof, xNext, xColumn.

The adapter's own logic (the loops in the callbacks) is translated
directly from the header.  The small data types it consumes
(Constraint, ConstraintSet, QueryContext, ConstraintList) are declared
in osquery/tables.h, which is not part of the sources; they are
modelled from the specification's data-model section.  Unchecked C++
vector indexing is modelled by returning `none` (an explicit marker for
the out-of-bounds access) from the embedded callback.
-/

namespace VirtualTable

/-- SQLite result code SQLITE_OK. -/
def SQLITE_OK : Int := 0

/-- SQLite result code SQLITE_ERROR. -/
def SQLITE_ERROR : Int := 1

/-- SQLite result code SQLITE_NOMEM. -/
def SQLITE_NOMEM : Int := 7

/-- A typed SQLite result value, as set by sqlite3_result_text /
sqlite3_result_int / sqlite3_result_int64 in xColumn. -/
inductive SQLValue where
  | text (s : String)
  | int (i : Int)
  | int64 (i : Int)
deriving DecidableEq, Repr

/-- One LOG(WARNING) diagnostic emitted by xColumn on a failed numeric
cast: it names the column, the offending raw value and the target type. -/
structure Diagnostic where
  column : String
  value : String
  target : String
deriving DecidableEq, Repr

/-- Modelled from the spec: `Constraint` (declared in osquery/tables.h,
not under the sources): one predicate term, an operator code plus a
literal expression that is empty at planning time and filled in at
execution time. -/
structure Constraint where
  op : Nat
  expr : String := ""
deriving DecidableEq, Repr

/-- Modelled from the spec: `ConstraintList` (declared in
osquery/tables.h): the per-column entry of a QueryContext, carrying the
column's declared affinity and the constraints restricted to it;
`add` appends. -/
structure ConstraintList where
  affinity : String := ""
  constraints : List Constraint := []
deriving DecidableEq, Repr

/-- Modelled from the spec: `QueryContext` (declared in
osquery/tables.h): a map from column name to ConstraintList.  The C++
std::map with operator[] default-construction is modelled as a total
function defaulting to the empty ConstraintList. -/
structure QueryContext where
  constraints : String → ConstraintList

/-- A generated row: the plugin returns std::map<string,string>;
modelled as an association list. -/
def Row := List (String × String)

/-- Lookup `row[name]` on a generated row: first binding wins, a
missing key default-constructs the empty string (std::map::operator[]). -/
def rowValue : Row → String → String
  | [], _ => ""
  | (k, v) :: rest, name => if k = name then v else rowValue rest name

/-- The static part of a table plugin (template parameter T): its name,
column names, column types, and its generate routine. -/
structure TablePluginDef where
  name : String
  column_names : List String
  types : List String
  generate : QueryContext → List Row

/-- The mutable content of one adapter instance (struct osquery_table):
row count `n`, the column-major row buffer `columns` (std::map from
column name to vector of values, modelled as a total function
defaulting to the empty list), and the ConstraintSet `constraints`
(an ordered list of (column name, Constraint) pairs). -/
structure TableState where
  n : Nat
  columns : String → List String
  constraints : List (String × Constraint)

/-- The adapter content right after `new T` in xCreate: empty buffer,
empty ConstraintSet. -/
def initialState : TableState :=
  { n := 0, columns := fun _ => [], constraints := [] }

/-- Update one key of the column-major buffer map. -/
def updateMap (m : String → List String) (k : String) (v : List String) :
    String → List String :=
  fun x => if x = k then v else m x

/-- The first xFilter loop's buffer clearing:
`pContent->columns[column_names[i]].clear()` for every declared column. -/
def clearColumns (names : List String) (m : String → List String) :
    String → List String :=
  match names with
  | [] => m
  | nm :: rest => clearColumns rest (updateMap m nm [])

/-- The inner xFilter loop over one generated row:
`columns[column_name].push_back(row[column_name])` for each declared
column, in schema order. -/
def pushRow (names : List String) (r : Row) (m : String → List String) :
    String → List String :=
  match names with
  | [] => m
  | nm :: rest => pushRow rest r (updateMap m nm (m nm ++ [rowValue r nm]))

/-- The xFilter row-drain loop: push every generated row into the
buffer, incrementing the row count per row. -/
def fillBuffer (names : List String) (rows : List Row)
    (m : String → List String) (n : Nat) : (String → List String) × Nat :=
  match rows with
  | [] => (m, n)
  | r :: rest => fillBuffer names rest (pushRow names r m) (n + 1)

/-- The first xFilter loop's affinity pass:
`request.constraints[column_names[i]].affinity = types[i]`, walking the
declared columns in order.  Reading `types[i]` past the end of the
types vector is the unchecked C++ access, modelled as `none`. -/
def setAffinities : List String → List String → (String → ConstraintList) →
    Option (String → ConstraintList)
  | [], _, m => some m
  | _ :: _, [], _ => none
  | nm :: names, ty :: tys, m =>
      setAffinities names tys
        (fun x => if x = nm then { m nm with affinity := ty } else m x)

/-- The second xFilter loop's literal binding:
`constraints[i].second.expr = argv[i]` for `i < argc`.  Accessing
`constraints[i]` past the end of the ConstraintSet is the unchecked
C++ access, modelled as `none`. -/
def bindConstraints : List (String × Constraint) → List String →
    Option (List (String × Constraint))
  | cs, [] => some cs
  | [], _ :: _ => none
  | (nm, c) :: cs, a :: args =>
      (bindConstraints cs args).map (fun rest => (nm, { c with expr := a }) :: rest)

/-- The call `request.constraints[name].add(constraint)`: append one
bound constraint to its column's ConstraintList. -/
def addToCtx (m : String → ConstraintList) (nm : String) (c : Constraint) :
    String → ConstraintList :=
  fun x =>
    if x = nm then { m nm with constraints := (m nm).constraints ++ [c] }
    else m x

/-- Fold the second xFilter loop's `add` calls over the bound prefix of
the ConstraintSet, in positional order. -/
def addAllToCtx (m : String → ConstraintList) :
    List (String × Constraint) → (String → ConstraintList)
  | [] => m
  | (nm, c) :: rest => addAllToCtx (addToCtx m nm c) rest

/-- Modelled from the spec: boost::lexical_cast for a signed integral
target (the strict numeric parse of the value-coercion section): the
whole string must be an optionally signed run of decimal digits whose
value fits the target's bounds; anything else fails. -/
def parseDigits (cs : List Char) : Option Nat :=
  match cs with
  | [] => none
  | _ =>
    cs.foldl
      (fun acc c =>
        acc.bind (fun v => if c.isDigit then some (v * 10 + (c.toNat - 48)) else none))
      (some 0)

/-- Strict signed decimal parse with inclusive bounds, the model of
boost::lexical_cast to a bounded signed integer type. -/
def lexicalCastInt (s : String) (lo hi : Int) : Option Int :=
  let p : Int × List Char :=
    match s.data with
    | '+' :: rest => (1, rest)
    | '-' :: rest => (-1, rest)
    | cs => (1, cs)
  match parseDigits p.2 with
  | none => none
  | some d =>
      let v : Int := p.1 * d
      if lo ≤ v ∧ v ≤ hi then some v else none

/-- Lower bound of C++ int (32-bit signed). -/
def int32min : Int := -(2 ^ 31)

/-- Upper bound of C++ int (32-bit signed). -/
def int32max : Int := 2 ^ 31 - 1

/-- Lower bound of C++ long long int (64-bit signed). -/
def int64min : Int := -(2 ^ 63)

/-- Upper bound of C++ long long int (64-bit signed). -/
def int64max : Int := 2 ^ 63 - 1

/-- The type-dispatch tail of xColumn: given the declared type, the
column name and the buffered string value, produce the SQLite result
value (none when the declared type is none of TEXT/INTEGER/BIGINT, in
which case xColumn sets no result) together with the LOG(WARNING)
diagnostics emitted. -/
def coerce (ty colName value : String) : Option SQLValue × List Diagnostic :=
  if ty = "TEXT" then (some (.text value), [])
  else if ty = "INTEGER" then
    match lexicalCastInt value int32min int32max with
    | some i => (some (.int i), [])
    | none => (some (.int (-1)), [⟨colName, value, "INTEGER"⟩])
  else if ty = "BIGINT" then
    match lexicalCastInt value int64min int64max with
    | some i => (some (.int64 i), [])
    | none => (some (.int64 (-1)), [⟨colName, value, "BIGINT"⟩])
  else (none, [])

/-- Result of one xColumn call: `ok` is SQLITE_OK with the result value
set (if any) and the diagnostics logged; `err` is SQLITE_ERROR from one
of the two bounds checks; `oob` marks the unchecked C++ vector access
`types[col]` when the types vector is shorter than the name vector. -/
inductive ColumnResult where
  | ok (v : Option SQLValue) (diags : List Diagnostic)
  | err
  | oob
deriving DecidableEq, Repr

/-- xColumn: bounds-check the column index against the schema, look up
the column's name and declared type, bounds-check the cursor position
against that column's buffered values, then coerce the value. -/
def xColumn (P : TablePluginDef) (st : TableState) (row col : Nat) :
    ColumnResult :=
  if h : col < P.column_names.length then
    let nm := P.column_names.get ⟨col, h⟩
    if h2 : col < P.types.length then
      let ty := P.types.get ⟨col, h2⟩
      if row < (st.columns nm).length then
        let value := (st.columns nm).getD row ""
        let r := coerce ty nm value
        .ok r.1 r.2
      else .err
    else .oob
  else .err

/-- xEof: the cursor is exhausted iff its position has reached the row
count. -/
def xEof (st : TableState) (row : Nat) : Bool :=
  st.n ≤ row

/-- xNext: advance the cursor position by one; no bounds check. -/
def xNext (row : Nat) : Nat :=
  row + 1

/-- One entry of sqlite3_index_info.aConstraint: the constrained
column's index (an int: the rowid pseudo-column is -1), the operator
code, and the usable flag. -/
structure IndexConstraint where
  iColumn : Int
  op : Nat
  usable : Bool
deriving DecidableEq, Repr

/-- The xBestIndex loop: walk the offered candidates in order; skip a
candidate that is not usable (its argvIndex stays unset, `none`); for a
usable one, read `column_names[iColumn]` (unchecked C++ vector access,
`none` overall when iColumn is out of the schema's range), append
(name, Constraint(op)) to the ConstraintSet, and assign the next
1-based argvIndex.  Returns the grown ConstraintSet and the per-
candidate argvIndex assignments. -/
def xBestIndexLoop (names : List String) :
    List IndexConstraint → List (String × Constraint) → Nat →
    Option (List (String × Constraint) × List (Option Nat))
  | [], cs, _ => some (cs, [])
  | cand :: rest, cs, exprIndex =>
    if cand.usable then
      if h : 0 ≤ cand.iColumn ∧ cand.iColumn.toNat < names.length then
        let nm := names.get ⟨cand.iColumn.toNat, h.2⟩
        match xBestIndexLoop names rest (cs ++ [(nm, { op := cand.op })]) (exprIndex + 1) with
        | none => none
        | some (cs2, assigns) => some (cs2, some (exprIndex + 1) :: assigns)
      else none
    else
      match xBestIndexLoop names rest cs exprIndex with
      | none => none
      | some (cs2, assigns) => some (cs2, none :: assigns)

/-- xBestIndex: run the candidate loop against the adapter's current
ConstraintSet (which it extends; nothing is ever cleared here). -/
def xBestIndex (P : TablePluginDef) (st : TableState)
    (cands : List IndexConstraint) :
    Option (TableState × List (Option Nat)) :=
  (xBestIndexLoop P.column_names cands st.constraints 0).map
    (fun r => ({ st with constraints := r.1 }, r.2))

/-- The context-building half of xFilter: the affinity pass over the
declared columns starting from a fresh QueryContext, then the literal-
binding loop over the ConstraintSet, then the `add` calls over the
bound prefix.  Returns the built QueryContext and the updated
ConstraintSet; `none` marks an unchecked C++ vector access. -/
def filterContext (P : TablePluginDef) (cs : List (String × Constraint))
    (args : List String) :
    Option (QueryContext × List (String × Constraint)) :=
  match setAffinities P.column_names P.types (fun _ => {}) with
  | none => none
  | some ctx0 =>
    match bindConstraints cs args with
    | none => none
    | some cs2 =>
        some (⟨addAllToCtx ctx0 (cs2.take args.length)⟩, cs2)

/-- xFilter: reset the cursor position to 0 and the row count to 0,
clear the buffer of every declared column, build the QueryContext from
the bound ConstraintSet, call generate once, and drain every generated
row into the buffer.  Returns the new cursor position and the new
adapter content. -/
def xFilter (P : TablePluginDef) (st : TableState) (args : List String) :
    Option (Nat × TableState) :=
  match filterContext P st.constraints args with
  | none => none
  | some (req, cs2) =>
      let rows := P.generate req
      let fb := fillBuffer P.column_names rows (clearColumns P.column_names st.columns) 0
      some (0, { n := fb.2, columns := fb.1, constraints := cs2 })

/-- xCreate: allocate the adapter object (allocation success is an
environment input; on failure return SQLITE_NOMEM with nothing written
to the output parameter), instantiate the plugin content with its
empty buffer and ConstraintSet, declare the schema (the engine's
verdict `declareRc` is an environment input), and return that verdict
with the object written to the output parameter. -/
def xCreate (_P : TablePluginDef) (allocOk : Bool) (declareRc : Int) :
    Int × Option TableState :=
  if allocOk then (declareRc, some initialState) else (SQLITE_NOMEM, none)

/-- Modelled from the spec: the engine side of attachment (sqlite's
CREATE VIRTUAL TABLE, not part of the sources) attaches the table iff
the create callback returned SQLITE_OK. -/
def tableAttached (createRc : Int) : Bool :=
  createRc = SQLITE_OK

/-- One engine-driven read of the current row: xColumn for every column
index of the schema, in order. -/
def readRowValues (P : TablePluginDef) (st : TableState) (cursor : Nat) :
    List ColumnResult :=
  (List.range P.column_names.length).map (fun c => xColumn P st cursor c)

/-- The engine's iteration loop after xFilter: while not xEof, read the
row's columns, then xNext.  `fuel` bounds the recursion; the adapter's
row count is enough fuel. -/
def scanRows (P : TablePluginDef) (st : TableState) :
    Nat → Nat → List (List ColumnResult)
  | _, 0 => []
  | cursor, fuel + 1 =>
      if xEof st cursor then []
      else readRowValues P st cursor :: scanRows P st (xNext cursor) fuel

/-- Full iteration from a freshly filtered cursor (position 0). -/
def scan (P : TablePluginDef) (st : TableState) : List (List ColumnResult) :=
  scanRows P st 0 st.n

/-! ### Helper definitions for stating expected results -/

/-- The literal binding of one ConstraintSet entry at one argv position. -/
def bindOne (p : String × Constraint) (a : String) : String × Constraint :=
  (p.1, { p.2 with expr := a })

/-- The ConstraintSet after xFilter's binding loop: the first
`args.length` entries get their literals, the rest are untouched. -/
def boundSet (cs : List (String × Constraint)) (args : List String) :
    List (String × Constraint) :=
  List.zipWith bindOne (cs.take args.length) args ++ cs.drop args.length

/-- The (column name, Constraint) pairs xBestIndex appends: one per
usable candidate, in candidate order, with the empty literal. -/
def acceptedPairs (names : List String) (cands : List IndexConstraint) :
    List (String × Constraint) :=
  (cands.filter (fun c => c.usable)).map
    (fun c => (names.getD c.iColumn.toNat "", { op := c.op }))

/-- The argvIndex assignments xBestIndex hands back: the k-th usable
candidate (counting from 1, having already accepted `k0`) gets index
k0 + k, a not-usable candidate gets none. -/
def expectedAssignsFrom (k : Nat) : List IndexConstraint → List (Option Nat)
  | [] => []
  | c :: rest =>
      if c.usable then some (k + 1) :: expectedAssignsFrom (k + 1) rest
      else none :: expectedAssignsFrom k rest

/-- The column results the engine should read for one generated row:
for each schema position, the coercion of the row's value for that
column under the column's declared type. -/
def expectedRow (P : TablePluginDef) (r : Row) : List ColumnResult :=
  (List.range P.column_names.length).map (fun c =>
    ColumnResult.ok
      (coerce (P.types.getD c "") (P.column_names.getD c "")
        (rowValue r (P.column_names.getD c ""))).1
      (coerce (P.types.getD c "") (P.column_names.getD c "")
        (rowValue r (P.column_names.getD c ""))).2)

/-! ### Buffer lemmas -/

theorem updateMap_self (m : String → List String) (k : String) (v : List String) :
    updateMap m k v k = v := by
  simp [updateMap]

theorem updateMap_ne (m : String → List String) {k x : String} (v : List String)
    (h : x ≠ k) : updateMap m k v x = m x := by
  simp [updateMap, h]

theorem clearColumns_not_mem :
    ∀ (names : List String) (m : String → List String) {nm : String},
      nm ∉ names → clearColumns names m nm = m nm
  | [], _, _, _ => rfl
  | a :: rest, m, nm, h => by
      have h1 : nm ≠ a := fun e => h (e ▸ List.mem_cons_self a rest)
      have h2 : nm ∉ rest := fun e => h (List.mem_cons_of_mem a e)
      rw [clearColumns, clearColumns_not_mem rest _ h2, updateMap_ne _ _ h1]

theorem clearColumns_mem :
    ∀ (names : List String) (m : String → List String) {nm : String},
      nm ∈ names → clearColumns names m nm = []
  | [], _, _, h => absurd h (List.not_mem_nil _)
  | a :: rest, m, nm, h => by
      by_cases hr : nm ∈ rest
      · rw [clearColumns, clearColumns_mem rest _ hr]
      · have h1 : nm = a := by
          rcases List.mem_cons.mp h with h' | h'
          · exact h'
          · exact absurd h' hr
        subst h1
        rw [clearColumns, clearColumns_not_mem rest _ hr, updateMap_self]

theorem pushRow_not_mem :
    ∀ (names : List String) (r : Row) (m : String → List String) {nm : String},
      nm ∉ names → pushRow names r m nm = m nm
  | [], _, _, _, _ => rfl
  | a :: rest, r, m, nm, h => by
      have h1 : nm ≠ a := fun e => h (e ▸ List.mem_cons_self a rest)
      have h2 : nm ∉ rest := fun e => h (List.mem_cons_of_mem a e)
      rw [pushRow, pushRow_not_mem rest r _ h2, updateMap_ne _ _ h1]

theorem pushRow_mem :
    ∀ (names : List String) (r : Row) (m : String → List String) {nm : String},
      names.Nodup → nm ∈ names →
      pushRow names r m nm = m nm ++ [rowValue r nm]
  | [], _, _, _, _, h => absurd h (List.not_mem_nil _)
  | a :: rest, r, m, nm, hnd, h => by
      rcases List.nodup_cons.mp hnd with ⟨ha, hrest⟩
      by_cases he : nm = a
      · subst he
        rw [pushRow, pushRow_not_mem rest r _ ha, updateMap_self]
      · have hr : nm ∈ rest := by
          rcases List.mem_cons.mp h with h' | h'
          · exact absurd h' he
          · exact h'
        rw [pushRow, pushRow_mem rest r _ hrest hr, updateMap_ne _ _ he]

theorem fillBuffer_count :
    ∀ (rows : List Row) (names : List String) (m : String → List String) (n : Nat),
      (fillBuffer names rows m n).2 = n + rows.length
  | [], _, _, _ => rfl
  | r :: rest, names, m, n => by
      rw [fillBuffer, fillBuffer_count rest names _ (n + 1)]
      simp only [List.length_cons]
      omega

theorem fillBuffer_not_mem :
    ∀ (rows : List Row) (names : List String) (m : String → List String)
      (n : Nat) {nm : String},
      nm ∉ names → (fillBuffer names rows m n).1 nm = m nm
  | [], _, _, _, _, _ => rfl
  | r :: rest, names, m, n, nm, h => by
      rw [fillBuffer, fillBuffer_not_mem rest names _ (n + 1) h,
        pushRow_not_mem names r m h]

theorem fillBuffer_mem :
    ∀ (rows : List Row) (names : List String) (m : String → List String)
      (n : Nat) {nm : String},
      names.Nodup → nm ∈ names →
      (fillBuffer names rows m n).1 nm =
        m nm ++ rows.map (fun r => rowValue r nm)
  | [], _, _, _, _, _, _ => by simp [fillBuffer]
  | r :: rest, names, m, n, nm, hnd, h => by
      rw [fillBuffer, fillBuffer_mem rest names _ (n + 1) hnd h,
        pushRow_mem names r m hnd h]
      simp

/-! ### Affinity, binding and context lemmas -/

theorem setAffinities_some :
    ∀ (names tys : List String) (m : String → ConstraintList),
      names.length ≤ tys.length →
      ∃ m2, setAffinities names tys m = some m2 ∧
        ∀ x, (m2 x).constraints = (m x).constraints
  | [], tys, m, _ => ⟨m, rfl, fun _ => rfl⟩
  | a :: rest, [], _, h => by simp at h
  | a :: rest, t :: tys, m, h => by
      have hle : rest.length ≤ tys.length := by
        simp only [List.length_cons] at h; omega
      obtain ⟨m2, he, hc⟩ :=
        setAffinities_some rest tys
          (fun x => if x = a then { m a with affinity := t } else m x) hle
      refine ⟨m2, he, fun x => ?_⟩
      rw [hc x]
      by_cases hx : x = a <;> simp [hx]

theorem bindConstraints_eq :
    ∀ (args : List String) (cs : List (String × Constraint)),
      args.length ≤ cs.length →
      bindConstraints cs args = some (boundSet cs args)
  | [], cs, _ => by simp [bindConstraints, boundSet]
  | a :: args, [], h => by simp at h
  | a :: args, (nm, c) :: cs, h => by
      have hle : args.length ≤ cs.length := by
        simp only [List.length_cons] at h; omega
      rw [bindConstraints, bindConstraints_eq args cs hle]
      simp [boundSet, bindOne]

theorem bindConstraints_some :
    ∀ (args : List String) (cs cs2 : List (String × Constraint)),
      bindConstraints cs args = some cs2 →
      args.length ≤ cs.length ∧ cs2 = boundSet cs args
  | [], cs, cs2, h => by
      constructor
      · simp
      · rw [bindConstraints] at h
        simp [boundSet]
        exact (Option.some.injEq _ _ ▸ h).symm
  | a :: args, [], cs2, h => by rw [bindConstraints] at h; exact absurd h (by simp)
  | a :: args, (nm, c) :: cs, cs2, h => by
      rw [bindConstraints] at h
      rcases Option.map_eq_some'.mp h with ⟨rest, hr, he⟩
      obtain ⟨hlen, hb⟩ := bindConstraints_some args cs rest hr
      constructor
      · simp only [List.length_cons]; omega
      · subst he; rw [hb]; simp [boundSet, bindOne]

theorem boundSet_length (cs : List (String × Constraint)) (args : List String)
    (h : args.length ≤ cs.length) : (boundSet cs args).length = cs.length := by
  rw [boundSet]
  simp only [List.length_append, List.length_zipWith, List.length_take,
    List.length_drop]
  omega

theorem zipWith_bindOne_map_skel :
    ∀ (l : List (String × Constraint)) (args : List String),
      l.length ≤ args.length →
      (List.zipWith bindOne l args).map (fun p => (p.1, p.2.op)) =
        l.map (fun p => (p.1, p.2.op))
  | [], _, _ => by simp
  | p :: l, [], h => by simp at h
  | p :: l, a :: args, h => by
      have hle : l.length ≤ args.length := by
        simp only [List.length_cons] at h; omega
      simp only [List.zipWith_cons_cons, List.map_cons,
        zipWith_bindOne_map_skel l args hle]
      rfl

theorem boundSet_skel (cs : List (String × Constraint)) (args : List String) :
    (boundSet cs args).map (fun p => (p.1, p.2.op)) =
      cs.map (fun p => (p.1, p.2.op)) := by
  rw [boundSet, List.map_append, zipWith_bindOne_map_skel _ _ (by simp),
    ← List.map_append, List.take_append_drop]

theorem bindOne_idem (p : String × Constraint) (a : String) :
    bindOne (bindOne p a) a = bindOne p a := rfl

theorem zipWith_bindOne_idem :
    ∀ (l : List (String × Constraint)) (args : List String),
      List.zipWith bindOne (List.zipWith bindOne l args) args =
        List.zipWith bindOne l args
  | [], _ => by simp
  | p :: l, [] => by simp
  | p :: l, a :: args => by
      simp only [List.zipWith_cons_cons, bindOne_idem, zipWith_bindOne_idem l args]

theorem boundSet_idem (cs : List (String × Constraint)) (args : List String)
    (h : args.length ≤ cs.length) :
    boundSet (boundSet cs args) args = boundSet cs args := by
  have hz : (List.zipWith bindOne (cs.take args.length) args).length = args.length := by
    simp only [List.length_zipWith, List.length_take]
    omega
  conv_lhs => rw [boundSet, boundSet]
  rw [List.take_append_of_le_length (le_of_eq hz.symm),
    List.drop_append_of_le_length (le_of_eq hz.symm),
    List.take_of_length_le (le_of_eq hz),
    List.drop_eq_nil_of_le (le_of_eq hz),
    zipWith_bindOne_idem, List.nil_append, ← boundSet]

theorem addAllToCtx_constraints :
    ∀ (L : List (String × Constraint)) (m : String → ConstraintList) (nm : String),
      ((addAllToCtx m L) nm).constraints =
        (m nm).constraints ++ (L.filter (fun p => p.1 == nm)).map Prod.snd
  | [], _, _ => by simp [addAllToCtx]
  | (a, c) :: rest, m, nm => by
      rw [addAllToCtx, addAllToCtx_constraints rest _ nm]
      by_cases ha : a = nm
      · subst ha
        simp [addToCtx, List.filter_cons]
      · have hb : ((a, c).1 == nm) = false := by
          simp [ha]
        simp only [List.filter_cons, hb, if_neg]
        rw [addToCtx]
        simp [Ne.symm ha, ha]

/-! ### filterContext and xFilter lemmas -/

theorem filterContext_eq (P : TablePluginDef) (cs : List (String × Constraint))
    (args : List String)
    (hlen : P.column_names.length ≤ P.types.length)
    (hargs : args.length ≤ cs.length) :
    ∃ req, filterContext P cs args = some (req, boundSet cs args) ∧
      ∀ nm, (req.constraints nm).constraints =
        (((boundSet cs args).take args.length).filter
          (fun p => p.1 == nm)).map Prod.snd := by
  obtain ⟨m2, he, hc⟩ := setAffinities_some P.column_names P.types (fun _ => {}) hlen
  refine ⟨⟨addAllToCtx m2 ((boundSet cs args).take args.length)⟩, ?_, ?_⟩
  · rw [filterContext, he, bindConstraints_eq args cs hargs]
  · intro nm
    simp only []
    rw [addAllToCtx_constraints, hc nm]
    rfl

theorem xFilter_spec (P : TablePluginDef) (st : TableState) (args : List String)
    (hlen : P.column_names.length ≤ P.types.length)
    (hargs : args.length ≤ st.constraints.length)
    (hnd : P.column_names.Nodup) :
    ∃ req st2,
      filterContext P st.constraints args = some (req, boundSet st.constraints args) ∧
      (∀ nm, (req.constraints nm).constraints =
        (((boundSet st.constraints args).take args.length).filter
          (fun p => p.1 == nm)).map Prod.snd) ∧
      xFilter P st args = some (0, st2) ∧
      st2.n = (P.generate req).length ∧
      st2.constraints = boundSet st.constraints args ∧
      (∀ nm ∈ P.column_names,
        st2.columns nm = (P.generate req).map (fun r => rowValue r nm)) ∧
      (∀ nm, nm ∉ P.column_names → st2.columns nm = st.columns nm) := by
  obtain ⟨req, he, hctx⟩ := filterContext_eq P st.constraints args hlen hargs
  refine ⟨req,
    { n := (fillBuffer P.column_names (P.generate req)
        (clearColumns P.column_names st.columns) 0).2,
      columns := (fillBuffer P.column_names (P.generate req)
        (clearColumns P.column_names st.columns) 0).1,
      constraints := boundSet st.constraints args },
    he, hctx, ?_, ?_, rfl, ?_, ?_⟩
  · rw [xFilter, he]
  · dsimp only
    rw [fillBuffer_count]
    omega
  · intro nm hm
    simp only [fillBuffer_mem _ _ _ _ hnd hm, clearColumns_mem _ _ hm,
      List.nil_append]
  · intro nm hm
    simp only [fillBuffer_not_mem _ _ _ _ hm, clearColumns_not_mem _ _ hm]

/-! ### xColumn lemmas -/

theorem xColumn_err_col (P : TablePluginDef) (st : TableState) (row col : Nat)
    (h : P.column_names.length ≤ col) : xColumn P st row col = .err := by
  rw [xColumn, dif_neg (by omega)]

theorem xColumn_err_row (P : TablePluginDef) (st : TableState) (row col : Nat)
    (h : col < P.column_names.length) (h2 : col < P.types.length)
    (h3 : (st.columns (P.column_names.get ⟨col, h⟩)).length ≤ row) :
    xColumn P st row col = .err := by
  have h4 : ¬ row < (st.columns (P.column_names.get ⟨col, h⟩)).length := by omega
  simp only [xColumn, dif_pos h, dif_pos h2]
  exact if_neg h4

theorem xColumn_ok_eq (P : TablePluginDef) (st : TableState) (row col : Nat)
    (h : col < P.column_names.length) (h2 : col < P.types.length)
    (h3 : row < (st.columns (P.column_names.get ⟨col, h⟩)).length) :
    xColumn P st row col =
      .ok (coerce (P.types.get ⟨col, h2⟩) (P.column_names.get ⟨col, h⟩)
            ((st.columns (P.column_names.get ⟨col, h⟩)).getD row "")).1
          (coerce (P.types.get ⟨col, h2⟩) (P.column_names.get ⟨col, h⟩)
            ((st.columns (P.column_names.get ⟨col, h⟩)).getD row "")).2 := by
  simp only [xColumn, dif_pos h, dif_pos h2, if_pos h3]

/-! ### Iteration lemmas -/

theorem scanRows_eq (P : TablePluginDef) (st : TableState) (R : List Row)
    (hlen : P.column_names.length ≤ P.types.length)
    (hn : st.n = R.length)
    (hcols : ∀ nm ∈ P.column_names,
      st.columns nm = R.map (fun r => rowValue r nm)) :
    ∀ (fuel cursor : Nat), cursor + fuel = st.n →
      scanRows P st cursor fuel = (R.drop cursor).map (expectedRow P)
  | 0, cursor, hc => by
      have hcur : R.length ≤ cursor := by omega
      rw [scanRows, List.drop_eq_nil_of_le hcur, List.map_nil]
  | fuel + 1, cursor, hc => by
      have hlt : cursor < st.n := by omega
      have hcur : cursor < R.length := by omega
      rw [scanRows, if_neg (by simp only [xEof, decide_eq_true_eq]; omega),
        List.drop_eq_getElem_cons hcur, List.map_cons]
      congr 1
      · rw [readRowValues, expectedRow]
        apply List.map_congr_left
        intro c hcr
        have hcl : c < P.column_names.length := List.mem_range.mp hcr
        have hct : c < P.types.length := lt_of_lt_of_le hcl hlen
        have hnm : P.column_names.getD c "" = P.column_names.get ⟨c, hcl⟩ := by
          rw [List.getD_eq_getElem _ _ hcl, List.get_eq_getElem]
        have hty : P.types.getD c "" = P.types.get ⟨c, hct⟩ := by
          rw [List.getD_eq_getElem _ _ hct, List.get_eq_getElem]
        have hmem : P.column_names.get ⟨c, hcl⟩ ∈ P.column_names :=
          List.get_mem _ _ _
        have hcol := hcols _ hmem
        have h3 : cursor < (st.columns (P.column_names.get ⟨c, hcl⟩)).length := by
          rw [hcol, List.length_map]; omega
        rw [xColumn_ok_eq P st cursor c hcl hct h3, hnm, hty, hcol]
        have hval : (R.map (fun r => rowValue r (P.column_names.get ⟨c, hcl⟩))).getD
            cursor "" = rowValue R[cursor] (P.column_names.get ⟨c, hcl⟩) := by
          rw [List.getD_eq_getElem _ _ (by rw [List.length_map]; omega),
            List.getElem_map]
        rw [hval]
      · rw [xNext]
        exact scanRows_eq P st R hlen hn hcols fuel (cursor + 1) (by omega)

theorem scan_eq (P : TablePluginDef) (st : TableState) (R : List Row)
    (hlen : P.column_names.length ≤ P.types.length)
    (hn : st.n = R.length)
    (hcols : ∀ nm ∈ P.column_names,
      st.columns nm = R.map (fun r => rowValue r nm)) :
    scan P st = R.map (expectedRow P) := by
  rw [scan, scanRows_eq P st R hlen hn hcols st.n 0 (by omega), List.drop_zero]

/-! ### xBestIndex lemmas -/

theorem xBestIndexLoop_eq (names : List String) :
    ∀ (cands : List IndexConstraint) (cs : List (String × Constraint)) (k : Nat),
      (∀ c ∈ cands, c.usable = true →
        0 ≤ c.iColumn ∧ c.iColumn.toNat < names.length) →
      xBestIndexLoop names cands cs k =
        some (cs ++ acceptedPairs names cands, expectedAssignsFrom k cands)
  | [], cs, k, _ => by
      simp [xBestIndexLoop, acceptedPairs, expectedAssignsFrom]
  | cand :: rest, cs, k, h => by
      have hrest : ∀ c ∈ rest, c.usable = true →
          0 ≤ c.iColumn ∧ c.iColumn.toNat < names.length :=
        fun c hc => h c (List.mem_cons_of_mem _ hc)
      by_cases hu : cand.usable = true
      · have hr := h cand (List.mem_cons_self _ _) hu
        have hnm : names.getD cand.iColumn.toNat "" =
            names.get ⟨cand.iColumn.toNat, hr.2⟩ := by
          rw [List.getD_eq_getElem _ _ hr.2, List.get_eq_getElem]
        rw [xBestIndexLoop, if_pos hu, dif_pos hr]
        dsimp only
        rw [xBestIndexLoop_eq names rest _ (k + 1) hrest]
        dsimp only
        simp only [acceptedPairs, expectedAssignsFrom, if_pos hu,
          List.filter_cons_of_pos (by simpa using hu), List.map_cons, hnm,
          List.append_assoc, List.cons_append, List.nil_append]
      · rw [xBestIndexLoop, if_neg hu]
        rw [xBestIndexLoop_eq names rest cs k hrest]
        dsimp only
        simp only [acceptedPairs, expectedAssignsFrom, if_neg hu,
          List.filter_cons_of_neg (by simpa using hu)]

theorem xBestIndex_eq (P : TablePluginDef) (st : TableState)
    (cands : List IndexConstraint)
    (h : ∀ c ∈ cands, c.usable = true →
      0 ≤ c.iColumn ∧ c.iColumn.toNat < P.column_names.length) :
    xBestIndex P st cands =
      some ({ st with constraints :=
        st.constraints ++ acceptedPairs P.column_names cands },
        expectedAssignsFrom 0 cands) := by
  rw [xBestIndex, xBestIndexLoop_eq P.column_names cands st.constraints 0 h,
    Option.map_some']

theorem xBestIndexLoop_appends (names : List String) :
    ∀ (cands : List IndexConstraint) (cs cs2 : List (String × Constraint))
      (k : Nat) (assigns : List (Option Nat)),
      xBestIndexLoop names cands cs k = some (cs2, assigns) →
      ∃ suffix, cs2 = cs ++ suffix
  | [], cs, cs2, k, assigns, h => by
      rw [xBestIndexLoop] at h
      simp only [Option.some.injEq, Prod.mk.injEq] at h
      exact ⟨[], by rw [← h.1, List.append_nil]⟩
  | cand :: rest, cs, cs2, k, assigns, h => by
      rw [xBestIndexLoop] at h
      by_cases hu : cand.usable = true
      · rw [if_pos hu] at h
        by_cases hin : 0 ≤ cand.iColumn ∧ cand.iColumn.toNat < names.length
        · rw [dif_pos hin] at h
          dsimp only at h
          rcases hrec : xBestIndexLoop names rest
              (cs ++ [(names.get ⟨cand.iColumn.toNat, hin.2⟩,
                { op := cand.op })]) (k + 1) with _ | ⟨cs3, as3⟩
          · rw [hrec] at h
            exact absurd h (by simp)
          · rw [hrec] at h
            dsimp only at h
            simp only [Option.some.injEq, Prod.mk.injEq] at h
            obtain ⟨suffix, hs⟩ :=
              xBestIndexLoop_appends names rest _ cs3 (k + 1) as3 hrec
            refine ⟨[(names.get ⟨cand.iColumn.toNat, hin.2⟩,
              { op := cand.op })] ++ suffix, ?_⟩
            rw [← h.1, hs, List.append_assoc]
        · rw [dif_neg hin] at h
          exact absurd h (by simp)
      · rw [if_neg hu] at h
        rcases hrec : xBestIndexLoop names rest cs k with _ | ⟨cs3, as3⟩
        · rw [hrec] at h
          exact absurd h (by simp)
        · rw [hrec] at h
          dsimp only at h
          simp only [Option.some.injEq, Prod.mk.injEq] at h
          obtain ⟨suffix, hs⟩ :=
            xBestIndexLoop_appends names rest cs cs3 k as3 hrec
          exact ⟨suffix, by rw [← h.1, hs]⟩

/-- A generated row holds the empty string for any key it does not
bind (std::map::operator[] default-construction). -/
theorem rowValue_not_mem :
    ∀ (r : Row) (nm : String), nm ∉ r.map Prod.fst → rowValue r nm = ""
  | [], _, _ => rfl
  | (k, v) :: rest, nm, h => by
      have h1 : k ≠ nm := by
        intro e
        exact h (by simp [e])
      have h2 : nm ∉ rest.map Prod.fst := by
        intro e
        exact h (by simp [e])
      rw [rowValue, if_neg h1, rowValue_not_mem rest nm h2]

/-! ### Concrete fixtures used by counterexamples and witnesses -/

/-- A one-column stub plugin generating no rows. -/
def cexPlugin : TablePluginDef :=
  { name := "t1", column_names := ["c"], types := ["TEXT"],
    generate := fun _ => [] }

/-- A two-column stub plugin generating two rows, the second of which
lacks a value for column a, has a malformed INTEGER for column b, and
binds an undeclared key z. -/
def demoPlugin : TablePluginDef :=
  { name := "t2", column_names := ["a", "b"], types := ["TEXT", "INTEGER"],
    generate := fun _ => [[("a", "x"), ("b", "42")], [("b", "abc"), ("z", "ign")]] }

/-- An adapter state holding one negotiated, unbound constraint on
cexPlugin's column. -/
def stWith : TableState :=
  { n := 0, columns := fun _ => [], constraints := [("c", { op := 2 })] }

/-- An adapter state whose buffer holds demoPlugin's two generated rows
column-major. -/
def stDemo : TableState :=
  { n := 2,
    columns := fun x => if x = "a" then ["x", ""] else if x = "b" then ["42", "abc"] else [],
    constraints := [] }

/-! ### Claims -/

/-- C1: for every schema and every finite row sequence R returned by the
plugin's generate call, running filter and then iterating with
next/eof/column until eof yields exactly |R| rows, in generation order,
with each value read equal to R's value for that row/column after
coercion; and eof is true iff the cursor position has reached the
buffered row count.  (Side conditions: the schema is well formed —
distinct column names, a type per column — and the engine supplies at
most as many literals as there are negotiated constraints.) -/
theorem c1_filter_iteration (P : TablePluginDef) (st : TableState)
    (args : List String)
    (hlen : P.column_names.length ≤ P.types.length)
    (hnd : P.column_names.Nodup)
    (hargs : args.length ≤ st.constraints.length) :
    ∃ req st2,
      filterContext P st.constraints args = some (req, st2.constraints) ∧
      xFilter P st args = some (0, st2) ∧
      st2.n = (P.generate req).length ∧
      scan P st2 = (P.generate req).map (expectedRow P) ∧
      (scan P st2).length = (P.generate req).length ∧
      (∀ cur, xEof st2 cur = true ↔ st2.n ≤ cur) := by
  obtain ⟨req, st2, he, hctx, hf, hn, hcs, hcols, hout⟩ :=
    xFilter_spec P st args hlen hargs hnd
  refine ⟨req, st2, ?_, hf, hn, ?_, ?_, ?_⟩
  · rw [hcs]
    exact he
  · exact scan_eq P st2 (P.generate req) hlen hn hcols
  · rw [scan_eq P st2 (P.generate req) hlen hn hcols, List.length_map]
  · intro cur
    simp [xEof]

theorem c1_witness :
    demoPlugin.column_names.length ≤ demoPlugin.types.length ∧
    demoPlugin.column_names.Nodup ∧
    ([] : List String).length ≤ initialState.constraints.length ∧
    (xFilter demoPlugin initialState []).isSome = true := by
  refine ⟨by decide, by decide, by decide, ?_⟩
  obtain ⟨req, st2, _, hf, _⟩ :=
    c1_filter_iteration demoPlugin initialState [] (by decide) (by decide)
      (by decide)
  rw [hf]
  rfl

/-- C5: the claim says that when the engine supplies more literals than
there are ConstraintSet entries, the adapter signals a fatal error
rather than performing an unguarded access.  The code instead performs
the unguarded `constraints[i]` access with no bounds check and no error
path: binding one literal against an empty ConstraintSet reaches the
out-of-bounds access (the embedding's `none`), it does not return an
error code. -/
theorem c5_out_of_range_binding :
    bindConstraints ([] : List (String × Constraint)) ["x"] = none ∧
    xFilter cexPlugin initialState ["x"] = none :=
  ⟨rfl, rfl⟩

/-- C10: xBestIndex indexes the schema's column-name vector with each
usable candidate's raw column index and no bounds check, so in-range
indices are an unstated precondition: whenever every usable candidate
is in range the negotiation succeeds, and a usable candidate carrying
the engine's rowid pseudo-column index -1 reaches the out-of-bounds
access (the embedding's `none`). -/
theorem c10_bestindex_unchecked :
    (∀ (P : TablePluginDef) (st : TableState) (cands : List IndexConstraint),
      (∀ c ∈ cands, c.usable = true →
        0 ≤ c.iColumn ∧ c.iColumn.toNat < P.column_names.length) →
      (xBestIndex P st cands).isSome = true) ∧
    xBestIndex cexPlugin initialState [⟨-1, 2, true⟩] = none := by
  constructor
  · intro P st cands h
    rw [xBestIndex_eq P st cands h]
    rfl
  · rfl

theorem c10_witness :
    (xBestIndex cexPlugin initialState [⟨0, 2, true⟩]).isSome = true :=
  c10_bestindex_unchecked.1 cexPlugin initialState [⟨0, 2, true⟩] (by decide)

/-- C2: during a fresh best-index negotiation, each usable candidate
is appended to the ConstraintSet in engine-supplied order and assigned
the next 1-based positional index (encoded by expectedAssignsFrom 0:
the k-th usable candidate gets index k, not-usable candidates get
none); the outcome depends only on the usable candidates (rejected
candidates' positions are irrelevant); and binding literals
positionally at filter time yields a QueryContext whose per-column
constraint lists are exactly the proposed (column, operator) pairs
zipped with the literals, grouped by column in proposal order. -/
theorem c2_pushdown_binding (P : TablePluginDef) (st : TableState)
    (cands : List IndexConstraint) (args : List String)
    (hempty : st.constraints = [])
    (hlen : P.column_names.length ≤ P.types.length)
    (hrange : ∀ c ∈ cands, c.usable = true →
      0 ≤ c.iColumn ∧ c.iColumn.toNat < P.column_names.length)
    (hargs : args.length = (acceptedPairs P.column_names cands).length) :
    ∃ st1 req,
      xBestIndex P st cands = some (st1, expectedAssignsFrom 0 cands) ∧
      st1.constraints = acceptedPairs P.column_names cands ∧
      (∀ cands2, cands2.filter (fun c => c.usable) = cands.filter (fun c => c.usable) →
        ∃ st1b, xBestIndex P st cands2 = some (st1b, expectedAssignsFrom 0 cands2) ∧
          st1b.constraints = st1.constraints) ∧
      filterContext P st1.constraints args =
        some (req, List.zipWith bindOne (acceptedPairs P.column_names cands) args) ∧
      (∀ nm, (req.constraints nm).constraints =
        ((List.zipWith bindOne (acceptedPairs P.column_names cands) args).filter
          (fun p => p.1 == nm)).map Prod.snd) := by
  have hbs : boundSet (acceptedPairs P.column_names cands) args =
      List.zipWith bindOne (acceptedPairs P.column_names cands) args := by
    rw [boundSet, List.take_of_length_le (le_of_eq hargs.symm),
      List.drop_eq_nil_of_le (le_of_eq hargs.symm), List.append_nil]
  have hzlen : (List.zipWith bindOne (acceptedPairs P.column_names cands) args).length
      = args.length := by
    simp only [List.length_zipWith]
    omega
  obtain ⟨req, he, hctx⟩ :=
    filterContext_eq P (acceptedPairs P.column_names cands) args hlen
      (le_of_eq hargs)
  refine ⟨{ st with constraints := st.constraints ++ acceptedPairs P.column_names cands },
    req, xBestIndex_eq P st cands hrange, by rw [hempty, List.nil_append], ?_, ?_, ?_⟩
  · intro cands2 hfilt
    have hrange2 : ∀ c ∈ cands2, c.usable = true →
        0 ≤ c.iColumn ∧ c.iColumn.toNat < P.column_names.length := by
      intro c hc hu
      have hmem : c ∈ cands2.filter (fun c => c.usable) :=
        List.mem_filter.mpr ⟨hc, hu⟩
      rw [hfilt] at hmem
      exact hrange c (List.mem_filter.mp hmem).1 hu
    refine ⟨_, xBestIndex_eq P st cands2 hrange2, ?_⟩
    simp only [acceptedPairs, hfilt]
  · rw [hempty, List.nil_append, he, hbs]
  · intro nm
    rw [hctx nm, hbs, List.take_of_length_le (le_of_eq hzlen)]

theorem c2_witness :
    initialState.constraints = [] ∧
    (["u", "v"] : List String).length =
      (acceptedPairs demoPlugin.column_names
        [⟨0, 2, true⟩, ⟨1, 4, false⟩, ⟨1, 8, true⟩]).length ∧
    (xBestIndex demoPlugin initialState
      [⟨0, 2, true⟩, ⟨1, 4, false⟩, ⟨1, 8, true⟩]).isSome = true := by
  refine ⟨by decide, by decide, ?_⟩
  obtain ⟨st1, req, hbi, _⟩ :=
    c2_pushdown_binding demoPlugin initialState
      [⟨0, 2, true⟩, ⟨1, 4, false⟩, ⟨1, 8, true⟩] ["u", "v"]
      (by decide) (by decide) (by decide) (by decide)
  rw [hbi]
  rfl

/-! ### Coercion lemmas -/

theorem coerce_text (nm v : String) :
    coerce "TEXT" nm v = (some (.text v), []) := rfl

theorem coerce_int_ok (nm v : String) (i : Int)
    (hp : lexicalCastInt v int32min int32max = some i) :
    coerce "INTEGER" nm v = (some (.int i), []) := by
  rw [coerce, if_neg (by decide), if_pos rfl, hp]

theorem coerce_int_fail (nm v : String)
    (hp : lexicalCastInt v int32min int32max = none) :
    coerce "INTEGER" nm v = (some (.int (-1)), [⟨nm, v, "INTEGER"⟩]) := by
  rw [coerce, if_neg (by decide), if_pos rfl, hp]

theorem coerce_bigint_ok (nm v : String) (i : Int)
    (hp : lexicalCastInt v int64min int64max = some i) :
    coerce "BIGINT" nm v = (some (.int64 i), []) := by
  rw [coerce, if_neg (by decide), if_neg (by decide), if_pos rfl, hp]

theorem coerce_bigint_fail (nm v : String)
    (hp : lexicalCastInt v int64min int64max = none) :
    coerce "BIGINT" nm v = (some (.int64 (-1)), [⟨nm, v, "BIGINT"⟩]) := by
  rw [coerce, if_neg (by decide), if_neg (by decide), if_pos rfl, hp]

/-- C3: at column-read time, for an in-bounds cell: a TEXT column
passes the buffered string through verbatim (empty strings included);
an INTEGER (32-bit) or BIGINT (64-bit) column attempts the strict
numeric parse, returning the parsed value on success and, on failure,
the sentinel -1 together with exactly one diagnostic naming the column
and the offending raw value — and the read still returns SQLITE_OK
(the `ok` result) rather than aborting.  The final conjuncts pin the
spec's examples: "42" parses as 32-bit 42 and "9999999999" parses as
the exact 64-bit value. -/
theorem c3_value_coercion (P : TablePluginDef) (st : TableState) (row col : Nat)
    (h : col < P.column_names.length) (h2 : col < P.types.length)
    (h3 : row < (st.columns (P.column_names.get ⟨col, h⟩)).length) :
    (P.types.get ⟨col, h2⟩ = "TEXT" →
      xColumn P st row col =
        .ok (some (.text ((st.columns (P.column_names.get ⟨col, h⟩)).getD row ""))) []) ∧
    (P.types.get ⟨col, h2⟩ = "INTEGER" →
      (∀ i, lexicalCastInt ((st.columns (P.column_names.get ⟨col, h⟩)).getD row "")
          int32min int32max = some i →
        xColumn P st row col = .ok (some (.int i)) []) ∧
      (lexicalCastInt ((st.columns (P.column_names.get ⟨col, h⟩)).getD row "")
          int32min int32max = none →
        xColumn P st row col = .ok (some (.int (-1)))
          [⟨P.column_names.get ⟨col, h⟩,
            (st.columns (P.column_names.get ⟨col, h⟩)).getD row "", "INTEGER"⟩])) ∧
    (P.types.get ⟨col, h2⟩ = "BIGINT" →
      (∀ i, lexicalCastInt ((st.columns (P.column_names.get ⟨col, h⟩)).getD row "")
          int64min int64max = some i →
        xColumn P st row col = .ok (some (.int64 i)) []) ∧
      (lexicalCastInt ((st.columns (P.column_names.get ⟨col, h⟩)).getD row "")
          int64min int64max = none →
        xColumn P st row col = .ok (some (.int64 (-1)))
          [⟨P.column_names.get ⟨col, h⟩,
            (st.columns (P.column_names.get ⟨col, h⟩)).getD row "", "BIGINT"⟩])) ∧
    lexicalCastInt "42" int32min int32max = some 42 ∧
    lexicalCastInt "9999999999" int64min int64max = some 9999999999 ∧
    lexicalCastInt "abc" int32min int32max = none := by
  have hx := xColumn_ok_eq P st row col h h2 h3
  refine ⟨?_, ?_, ?_, by decide, by decide, by decide⟩
  · intro hty
    rw [hx, hty, coerce_text]
  · intro hty
    constructor
    · intro i hp
      rw [hx, hty, coerce_int_ok _ _ i hp]
    · intro hp
      rw [hx, hty, coerce_int_fail _ _ hp]
  · intro hty
    constructor
    · intro i hp
      rw [hx, hty, coerce_bigint_ok _ _ i hp]
    · intro hp
      rw [hx, hty, coerce_bigint_fail _ _ hp]

theorem c3_witness :
    xColumn demoPlugin stDemo 0 1 = .ok (some (.int 42)) [] ∧
    xColumn demoPlugin stDemo 1 1 =
      .ok (some (.int (-1))) [⟨"b", "abc", "INTEGER"⟩] ∧
    xColumn demoPlugin stDemo 1 0 = .ok (some (.text "")) [] := by
  refine ⟨?_, ?_, ?_⟩
  · exact ((c3_value_coercion demoPlugin stDemo 0 1 (by decide) (by decide)
      (by decide)).2.1 rfl).1 42 (by decide)
  · exact ((c3_value_coercion demoPlugin stDemo 1 1 (by decide) (by decide)
      (by decide)).2.1 rfl).2 (by decide)
  · exact (c3_value_coercion demoPlugin stDemo 1 0 (by decide) (by decide)
      (by decide)).1 rfl

/-- C4 counterexample: the claim says the ConstraintSet is cleared and
repopulated at every filter call, so that after any filter call it
contains only the current negotiation's constraints.  Running two
best-index/filter cycles of one usable candidate each on a fresh
adapter leaves a ConstraintSet of two entries (the claim requires one):
nothing is ever cleared, the second negotiation appended to the first's
set, and when the single literal of the second execution was bound it
overwrote the stale first entry while the freshly negotiated entry kept
the empty literal. -/
theorem c4_counterexample :
    ((xBestIndex cexPlugin initialState [⟨0, 2, true⟩]).bind (fun r1 =>
      (xFilter cexPlugin r1.1 ["a"]).bind (fun f1 =>
        (xBestIndex cexPlugin f1.2 [⟨0, 2, true⟩]).bind (fun r2 =>
          (xFilter cexPlugin r2.1 ["b"]).map (fun f2 => f2.2.constraints))))) =
      some [("c", { op := 2, expr := "b" }), ("c", { op := 2, expr := "" })] ∧
    ([("c", ({ op := 2, expr := "b" } : Constraint)),
      ("c", ({ op := 2, expr := "" } : Constraint))].length = 2 ∧ (2 : Nat) ≠ 1) :=
  ⟨rfl, rfl, by decide⟩

/-- C4 amended: the ConstraintSet is empty when the adapter instance is
created; best-index appends one entry per accepted candidate to
whatever the set already holds (it never clears), and filter only
writes literals into existing entries, preserving the set's length and
its (column, operator) skeleton — so constraints accumulate across
repeated best-index/filter cycles instead of being cleared at filter. -/
theorem c4_amended (P : TablePluginDef) (st : TableState)
    (cands : List IndexConstraint) (args : List String) :
    initialState.constraints = [] ∧
    (∀ st1 assigns, xBestIndex P st cands = some (st1, assigns) →
      ∃ suffix, st1.constraints = st.constraints ++ suffix) ∧
    (∀ cur2 st2, xFilter P st args = some (cur2, st2) →
      st2.constraints.length = st.constraints.length ∧
      st2.constraints.map (fun p => (p.1, p.2.op)) =
        st.constraints.map (fun p => (p.1, p.2.op))) := by
  refine ⟨rfl, ?_, ?_⟩
  · intro st1 assigns h
    rw [xBestIndex] at h
    rcases hrec : xBestIndexLoop P.column_names cands st.constraints 0 with _ | ⟨cs2, as2⟩
    · rw [hrec] at h
      exact absurd h (by simp)
    · rw [hrec] at h
      simp only [Option.map_some', Option.some.injEq, Prod.mk.injEq] at h
      obtain ⟨suffix, hs⟩ :=
        xBestIndexLoop_appends P.column_names cands st.constraints cs2 0 as2 hrec
      obtain ⟨h1, h2⟩ := h
      subst h1
      exact ⟨suffix, hs⟩
  · intro cur2 st2 h
    rw [xFilter, filterContext] at h
    rcases hsa : setAffinities P.column_names P.types (fun _ => {}) with _ | m2
    · rw [hsa] at h
      exact absurd h (by simp)
    · rw [hsa] at h
      rcases hbc : bindConstraints st.constraints args with _ | cs2
      · rw [hbc] at h
        exact absurd h (by simp)
      · rw [hbc] at h
        dsimp only at h
        simp only [Option.some.injEq, Prod.mk.injEq] at h
        obtain ⟨hlen2, hbs⟩ := bindConstraints_some args st.constraints cs2 hbc
        obtain ⟨h1, h2⟩ := h
        subst h2
        dsimp only
        rw [hbs]
        exact ⟨boundSet_length _ _ hlen2, boundSet_skel _ _⟩

theorem c4_witness :
    ([("c", ({ op := 2, expr := "a" } : Constraint))]).length =
      ([("c", ({ op := 2 } : Constraint))]).length ∧
    ([("c", ({ op := 2, expr := "a" } : Constraint))]).map (fun p => (p.1, p.2.op)) =
      ([("c", ({ op := 2 } : Constraint))]).map (fun p => (p.1, p.2.op)) :=
  (c4_amended cexPlugin stWith [] ["a"]).2.2 0
    { n := 0, columns := fun x => if x = "c" then [] else [],
      constraints := [("c", { op := 2, expr := "a" })] } rfl

/-- C7: for every declared type, a column read whose column index is at
or beyond the schema's column count, or whose cursor position is at or
beyond the buffered value count for that column, returns the bounds
error (SQLITE_ERROR) and produces no value; an in-bounds read delegates
to value coercion.  (Side condition: the schema pairs a type with every
column.) -/
theorem c7_column_bounds (P : TablePluginDef) (st : TableState) (row col : Nat)
    (hlen : P.column_names.length ≤ P.types.length) :
    (P.column_names.length ≤ col → xColumn P st row col = .err) ∧
    (∀ h : col < P.column_names.length,
      (st.columns (P.column_names.get ⟨col, h⟩)).length ≤ row →
      xColumn P st row col = .err) ∧
    (∀ h : col < P.column_names.length,
      ∀ h3 : row < (st.columns (P.column_names.get ⟨col, h⟩)).length,
      xColumn P st row col =
        .ok (coerce (P.types.get ⟨col, lt_of_lt_of_le h hlen⟩)
              (P.column_names.get ⟨col, h⟩)
              ((st.columns (P.column_names.get ⟨col, h⟩)).getD row "")).1
            (coerce (P.types.get ⟨col, lt_of_lt_of_le h hlen⟩)
              (P.column_names.get ⟨col, h⟩)
              ((st.columns (P.column_names.get ⟨col, h⟩)).getD row "")).2) :=
  ⟨fun hc => xColumn_err_col P st row col hc,
   fun h hr => xColumn_err_row P st row col h (lt_of_lt_of_le h hlen) hr,
   fun h h3 => xColumn_ok_eq P st row col h (lt_of_lt_of_le h hlen) h3⟩

theorem c7_witness :
    xColumn demoPlugin stDemo 0 5 = .err ∧
    xColumn demoPlugin stDemo 9 0 = .err ∧
    xColumn demoPlugin stDemo 0 0 = .ok (some (.text "x")) [] := by
  refine ⟨(c7_column_bounds demoPlugin stDemo 0 5 (by decide)).1 (by decide),
    (c7_column_bounds demoPlugin stDemo 9 0 (by decide)).2.1 (by decide) (by decide),
    ?_⟩
  rw [(c7_column_bounds demoPlugin stDemo 0 0 (by decide)).2.2 (by decide) (by decide)]
  rfl

/-- C8 counterexample: the claim says that when schema declaration
fails no partial object escapes.  With allocation succeeding and the
declaration verdict a failure code (1), xCreate returns that failure
code — so the attachment fails — yet the freshly allocated adapter
content is still written to the output parameter: a partial object does
escape (the output is some, not none). -/
theorem c8_counterexample :
    xCreate cexPlugin true 1 = (1, some initialState) ∧
    tableAttached 1 = false ∧
    (some initialState ≠ (none : Option TableState)) :=
  ⟨rfl, rfl, by simp⟩

/-- C8 amended: create/connect allocates one adapter instance,
instantiates its plugin content (empty buffer, empty ConstraintSet) and
declares the schema; if allocation fails it reports SQLITE_NOMEM and
nothing is written to the output parameter; if schema declaration fails
the declaration's error code is returned, so the attachment fails and
no table is attached — but the allocated adapter object is still
written to the output parameter. -/
theorem c8_amended (P : TablePluginDef) (rc : Int) :
    xCreate P false rc = (SQLITE_NOMEM, none) ∧
    (rc ≠ SQLITE_OK →
      (xCreate P true rc).1 = rc ∧
      tableAttached (xCreate P true rc).1 = false ∧
      (xCreate P true rc).2 = some initialState) := by
  refine ⟨rfl, fun h => ⟨rfl, ?_, rfl⟩⟩
  simp only [xCreate, if_pos rfl, tableAttached]
  simp [h]

theorem c8_witness :
    (xCreate cexPlugin true 1).1 = 1 ∧
    tableAttached (xCreate cexPlugin true 1).1 = false ∧
    (xCreate cexPlugin true 1).2 = some initialState :=
  (c8_amended cexPlugin 1).2 (by decide)

/-- C9: after any successful filter call the Row Buffer is rectangular
(every declared column's value sequence has length exactly the row
count); the value stored for a declared column a generated row does not
bind is the empty string; and keys of a generated row that are not
declared columns are ignored (the buffer outside the declared columns
is untouched). -/
theorem c9_rectangular_buffer (P : TablePluginDef) (st : TableState)
    (args : List String)
    (hlen : P.column_names.length ≤ P.types.length)
    (hnd : P.column_names.Nodup)
    (hargs : args.length ≤ st.constraints.length) :
    ∃ req st2,
      xFilter P st args = some (0, st2) ∧
      filterContext P st.constraints args = some (req, st2.constraints) ∧
      (∀ nm ∈ P.column_names, (st2.columns nm).length = st2.n) ∧
      (∀ nm ∈ P.column_names,
        st2.columns nm = (P.generate req).map (fun r => rowValue r nm)) ∧
      (∀ (r : Row) (nm : String), nm ∉ r.map Prod.fst → rowValue r nm = "") ∧
      (∀ nm, nm ∉ P.column_names → st2.columns nm = st.columns nm) := by
  obtain ⟨req, st2, he, hctx, hf, hn, hcs, hcols, hout⟩ :=
    xFilter_spec P st args hlen hargs hnd
  refine ⟨req, st2, hf, by rw [hcs]; exact he, ?_, hcols, rowValue_not_mem, hout⟩
  intro nm hm
  rw [hcols nm hm, List.length_map, hn]

theorem c9_witness :
    cexPlugin.column_names.length ≤ cexPlugin.types.length ∧
    cexPlugin.column_names.Nodup ∧
    (["a"] : List String).length ≤ stWith.constraints.length ∧
    (xFilter cexPlugin stWith ["a"]).isSome = true := by
  refine ⟨by decide, by decide, by decide, ?_⟩
  obtain ⟨req, st2, hf, _⟩ :=
    c9_rectangular_buffer cexPlugin stWith ["a"] (by decide) (by decide) (by decide)
  rw [hf]
  rfl

/-- Re-running the binding pass over an already-bound ConstraintSet
with the same literals builds the same context and the same set. -/
theorem filterContext_rebind (P : TablePluginDef)
    (cs : List (String × Constraint)) (args : List String)
    (hargs : args.length ≤ cs.length) :
    filterContext P (boundSet cs args) args = filterContext P cs args := by
  rw [filterContext, filterContext]
  cases hsa : setAffinities P.column_names P.types (fun _ => {}) with
  | none => rfl
  | some m2 =>
      rw [bindConstraints_eq args cs hargs,
        bindConstraints_eq args (boundSet cs args)
          (by rw [boundSet_length _ _ hargs]; exact hargs),
        boundSet_idem _ _ hargs]

/-- C6: every filter call resets the cursor position to 0 and rebuilds
the row count and every declared column's buffer from scratch, so the
resulting buffer reflects only the new execution's generated rows (the
prior buffer contents do not appear anywhere in the result), and
repeating filter on the resulting state with the same literals returns
exactly the same state (idempotence of filter). -/
theorem c6_refilter_resets (P : TablePluginDef) (st : TableState)
    (args : List String)
    (hlen : P.column_names.length ≤ P.types.length)
    (hnd : P.column_names.Nodup)
    (hargs : args.length ≤ st.constraints.length) :
    ∃ req st2,
      xFilter P st args = some (0, st2) ∧
      filterContext P st.constraints args = some (req, st2.constraints) ∧
      st2.n = (P.generate req).length ∧
      (∀ nm ∈ P.column_names,
        st2.columns nm = (P.generate req).map (fun r => rowValue r nm)) ∧
      xFilter P st2 args = some (0, st2) := by
  obtain ⟨req, st2, he, hctx, hf, hn, hcs, hcols, hout⟩ :=
    xFilter_spec P st args hlen hargs hnd
  refine ⟨req, st2, hf, by rw [hcs]; exact he, hn, hcols, ?_⟩
  rw [xFilter, hcs, filterContext_rebind P st.constraints args hargs, he]
  dsimp only
  refine congrArg some (congrArg (Prod.mk 0) ?_)
  obtain ⟨n2, cols2, cs2⟩ := st2
  dsimp only at hn hcols hout hcs
  simp only [TableState.mk.injEq]
  refine ⟨?_, ?_, hcs.symm⟩
  · rw [fillBuffer_count, hn]
    omega
  · funext x
    by_cases hx : x ∈ P.column_names
    · rw [fillBuffer_mem _ _ _ _ hnd hx, clearColumns_mem _ _ hx,
        List.nil_append, hcols x hx]
    · rw [fillBuffer_not_mem _ _ _ _ hx, clearColumns_not_mem _ _ hx]

theorem c6_witness :
    cexPlugin.column_names.length ≤ cexPlugin.types.length ∧
    cexPlugin.column_names.Nodup ∧
    (["q"] : List String).length ≤ stWith.constraints.length ∧
    (xFilter cexPlugin stWith ["q"]).isSome = true := by
  refine ⟨by decide, by decide, by decide, ?_⟩
  obtain ⟨req, st2, hf, _⟩ :=
    c6_refilter_resets cexPlugin stWith ["q"] (by decide) (by decide) (by decide)
  rw [hf]
  rfl

end VirtualTable
